import Mathlib

/-!
Verification of the Obsidian-note-to-SKOS converter (`obsidian_to_JSONLS.py`).

Strings are embedded as `List Char`.  Python front-matter values (as produced by
the `frontmatter` library and inspected by the program via `isinstance` checks
and truthiness tests) are embedded by the inductive type `Yaml`: scalars and
flat lists of scalars, which covers every value shape the program's logic
distinguishes and every input the specification mentions.
-/

/-- Abbreviation: Python strings are embedded as lists of characters. -/
abbrev Str := List Char

/-- Scalar front-matter values: strings, integers, booleans, and null/None. -/
inductive YamlScalar where
  | str (s : Str)
  | int (n : Int)
  | bool (b : Bool)
  | null
deriving DecidableEq, Repr

/-- A front-matter value: a scalar or a list of scalars. -/
inductive Yaml where
  | scalar (v : YamlScalar)
  | list (items : List YamlScalar)
deriving DecidableEq, Repr

/-- Python truthiness (`if not value`, `if value:`): None, the empty string,
the empty list, `0` and `False` are falsy; everything else is truthy. -/
def Yaml.falsy : Yaml → Bool
  | .scalar .null => true
  | .scalar (.str []) => true
  | .scalar (.int 0) => true
  | .scalar (.bool false) => true
  | .list [] => true
  | _ => false

/-- The record handed back by `frontmatter.load`: the recognized metadata
keys.  `post.get(key)` returns None for an absent key, so an absent key is
embedded as `Yaml.scalar .null`. -/
structure Post where
  aliases : Yaml
  definition : Yaml
  scopeNote : Yaml
  broader : Yaml
  narrower : Yaml
  related : Yaml
  exactMatch : Yaml
deriving DecidableEq, Repr

/-- Configuration constant `BASE_URI = "http://example.org/kb/"` (line 9). -/
def BASE_URI : Str := "http://example.org/kb/".toList

/-- Configuration constant `LANG = "en"` (line 10), the language tag carried
by every literal the program creates. -/
def LANG : Str := "en".toList

/-- Embeds Python `s.replace(ab, "")` for a fixed two-character pattern
`[a, b]` (used in `clean_uri`, line 15, with patterns `"[["` and `"]]"`):
scan left to right, removing each non-overlapping occurrence of the pattern. -/
def stripPair (a b : Char) : Str → Str
  | [] => []
  | [c] => [c]
  | c₁ :: c₂ :: rest =>
    if c₁ = a ∧ c₂ = b then stripPair a b rest
    else c₁ :: stripPair a b (c₂ :: rest)

/-- Embeds Python `s.replace(" ", "-")` (lines 16 and 117): a one-character
pattern, so each space is replaced independently. -/
def hyphenate (s : Str) : Str :=
  s.map fun c => if c = ' ' then '-' else c

/-- Characters `urllib.parse.quote` leaves unchanged with its default
`safe='/'`: ASCII letters, digits, `_ . - ~` and `/`. -/
def quoteSafe (c : Char) : Bool :=
  ('A' ≤ c && c ≤ 'Z') || ('a' ≤ c && c ≤ 'z') || ('0' ≤ c && c ≤ '9') ||
    c = '_' || c = '.' || c = '-' || c = '~' || c = '/'

/-- The UTF-8 bytes of a character, as natural numbers. -/
def utf8Bytes (c : Char) : List Nat :=
  let n := c.toNat
  if n < 0x80 then [n]
  else if n < 0x800 then [0xC0 + n / 64, 0x80 + n % 64]
  else if n < 0x10000 then [0xE0 + n / 4096, 0x80 + (n / 64) % 64, 0x80 + n % 64]
  else [0xF0 + n / 262144, 0x80 + (n / 4096) % 64, 0x80 + (n / 64) % 64, 0x80 + n % 64]

/-- Uppercase hexadecimal digit for a value below 16. -/
def hexDigit (n : Nat) : Char :=
  if n < 10 then Char.ofNat ('0'.toNat + n)
  else Char.ofNat ('A'.toNat + (n - 10))

/-- Percent-encoding of one byte, `%XX` with uppercase hex. -/
def pctByte (n : Nat) : Str :=
  ['%', hexDigit (n / 16), hexDigit (n % 16)]

/-- `urllib.parse.quote` on one character: safe characters pass through,
every other character is percent-encoded byte by byte. -/
def quoteChar (c : Char) : Str :=
  if quoteSafe c then [c] else (utf8Bytes c).flatMap pctByte

/-- Embeds `urllib.parse.quote(s)` with the default `safe='/'` (line 16). -/
def quote : Str → Str
  | [] => []
  | c :: rest => quoteChar c ++ quote rest

/-- The bracket-stripping step of `clean_uri` (line 15):
`label.replace("[[", "").replace("]]", "")`. -/
def stripBrackets (label : Str) : Str :=
  stripPair ']' ']' (stripPair '[' '[' label)

/-- The URI suffix built by `clean_uri` (line 16):
`quote(clean.replace(' ', '-'))`. -/
def uri_suffix (label : Str) : Str :=
  quote (hyphenate (stripBrackets label))

/-- Embeds `clean_uri` (lines 12-16): strip `[[` and `]]`, turn spaces into
hyphens, percent-encode, and prepend `BASE_URI`. -/
def clean_uri (label : Str) : Str :=
  BASE_URI ++ uri_suffix label

/-!
Link extraction (`parse_links`, lines 18-42).  The regular expression on line
36 is `\[\[([^\|\]]+)(\|[^\]]+)?\]\]`; `re.search` finds the leftmost position
at which it matches and `match.group(1)` is the first capture group.
-/

/-- Whether a character may appear in the first capture group `[^\|\]]+`. -/
def nameChar (c : Char) : Bool := !(c = '|' || c = ']')

/-- Whether a character may appear in the alias group `[^\]]+`. -/
def aliasChar (c : Char) : Bool := !(c = ']')

/-- Attempt to match `\[\[([^\|\]]+)(\|[^\]]+)?\]\]` at the head of the
string, returning the first capture group on success.  The greedy runs with
backtracking collapse to: after `[[`, the maximal run of non-`|`/`]`
characters must be nonempty and be followed either by `]]` directly or by
`|`, a nonempty run of non-`]` characters, and then `]]`. -/
def matchAt (s : Str) : Option Str :=
  match s with
  | c₁ :: c₂ :: rest =>
    if c₁ = '[' ∧ c₂ = '[' then
      let r₁ := rest.takeWhile nameChar
      let rest₂ := rest.dropWhile nameChar
      if r₁ = [] then none
      else
        match rest₂ with
        | ']' :: ']' :: _ => some r₁
        | '|' :: rest₃ =>
          let r₂ := rest₃.takeWhile aliasChar
          let rest₄ := rest₃.dropWhile aliasChar
          if r₂ = [] then none
          else
            match rest₄ with
            | ']' :: ']' :: _ => some r₁
            | _ => none
        | _ => none
    else none
  | _ => none

/-- `re.search`: try the pattern at each position from the left and return
the first (leftmost) match. -/
def searchLink : Str → Option Str
  | [] => none
  | c :: rest =>
    match matchAt (c :: rest) with
    | some r => some r
    | none => searchLink rest

/-- One loop iteration of `parse_links` (lines 34-41) applied to a string
item: the capture group of the first `[[...]]` pattern if one is present,
otherwise the whole item unchanged. -/
def extractLink (s : Str) : Str :=
  (searchLink s).getD s

/-- The value-shape dispatch of `parse_links` (lines 23-31): falsy values and
values that are neither a string nor a list give the empty item list, a
string gives a one-item list, a list is used as-is. -/
def normalize_relation (v : Yaml) : List Yaml :=
  if v.falsy then []
  else
    match v with
    | .scalar (.str s) => [.scalar (.str s)]
    | .list items => items.map .scalar
    | _ => []

/-- The alias normalization inlined on lines 67-68:
`aliases if isinstance(post['aliases'], list) else [post['aliases']]`,
guarded by `if post.get('aliases'):`. -/
def normalize_aliases (v : Yaml) : List Yaml :=
  if v.falsy then []
  else
    match v with
    | .list items => items.map .scalar
    | other => [other]

/-- Python errors the embedded code can raise and does not catch. -/
inductive PyError where
  | typeError
deriving DecidableEq, Repr

instance {ε α : Type} [DecidableEq ε] [DecidableEq α] : DecidableEq (Except ε α) := fun
  | .ok a, .ok b =>
    if h : a = b then .isTrue (by rw [h]) else .isFalse (by intro he; cases he; exact h rfl)
  | .error e, .error f =>
    if h : e = f then .isTrue (by rw [h]) else .isFalse (by intro he; cases he; exact h rfl)
  | .ok _, .error _ => .isFalse (by intro h; cases h)
  | .error _, .ok _ => .isFalse (by intro h; cases h)

/-- The item loop of `parse_links` (lines 33-42): each string item is
unwrapped with the regex; `re.search` raises a TypeError when handed a
non-string item. -/
def link_items : List Yaml → Except PyError (List Str)
  | [] => .ok []
  | item :: rest =>
    match item with
    | .scalar (.str s) => do
      let ls ← link_items rest
      .ok (extractLink s :: ls)
    | _ => .error .typeError

/-- Embeds `parse_links` (lines 18-42): shape dispatch followed by the
per-item link-unwrapping loop. -/
def parse_links (v : Yaml) : Except PyError (List Str) :=
  link_items (normalize_relation v)

/-!
The RDF graph (`generate_hierarchical_skos`, lines 44-105).  An `rdflib.Graph`
is a set of (subject, predicate, object) triples; `g.add` inserts a triple,
and inserting a triple already present leaves the graph unchanged.
-/

/-- The predicates the program uses: `RDF.type` and the SKOS terms. -/
inductive Predicate where
  | rdfType
  | prefLabel
  | altLabel
  | definition
  | scopeNote
  | broader
  | narrower
  | related
  | exactMatch
deriving DecidableEq, Repr

/-- Triple objects: the fixed class `skos:Concept`, a literal (always tagged
with the fixed language `LANG`, so the tag is not repeated here), or a URI
reference. -/
inductive Obj where
  | skosConcept
  | lit (v : Yaml)
  | uri (u : Str)
deriving DecidableEq, Repr

/-- One RDF triple.  The subject is always the concept URI built from the
file's base name, but it is kept in the representation for faithfulness. -/
structure Triple where
  subj : Str
  pred : Predicate
  obj : Obj
deriving DecidableEq, Repr

/-- Modelled from the spec: the in-memory graph object of the external graph
library, "accumulated by sequential triple insertions" (section 5), with set
semantics (section 3: SKOS relations are "a set, not a sequence").  The graph
is the list of distinct triples in insertion order; `add` inserts a triple
only if it is not already present. -/
def Graph.add (g : List Triple) (t : Triple) : List Triple :=
  if t ∈ g then g else g ++ [t]

/-- A `for x in xs: g.add(f(x))` loop. -/
def addAll (f : α → Triple) (g : List Triple) (xs : List α) : List Triple :=
  xs.foldl (fun g x => Graph.add g (f x)) g

/-- The triple added for one internal relation link (lines 84, 89, 94):
object is the identifier built by `clean_uri` from the reference name. -/
def relTriple (subj : Str) (p : Predicate) (l : Str) : Triple :=
  ⟨subj, p, .uri (clean_uri l)⟩

/-- Modelled from the spec: the URI well-formedness check performed by the
external graph library's `URIRef` constructor, which is not code under
`src/`.  Per the spec, `exactMatch: "not a valid uri!!"` is malformed while
an absolute URI such as `http://www.wikidata.org/entity/Q7174` is well
formed; modelled as "contains a colon and no space". -/
def uri_wellformed (s : Str) : Bool :=
  s.contains ':' && !s.contains ' '

/-- The wrap-into-a-list step for `exactMatch` (line 100):
`exact_match if isinstance(exact_match, list) else [exact_match]`, guarded by
`if exact_match:` (line 99). -/
def exact_match_values (v : Yaml) : List Yaml :=
  if v.falsy then []
  else
    match v with
    | .list items => items.map .scalar
    | other => [other]

/-- The `try: g.add((s, SKOS.exactMatch, URIRef(uri))) except: pass` body
(lines 101-105): an item is kept only when `URIRef` accepts it, i.e. when it
is a string passing the well-formedness check; every other item is silently
skipped. -/
def uriref_accepts : Yaml → Option Str
  | .scalar (.str s) => if uri_wellformed s then some s else none
  | _ => none

/-- The external URIs that actually reach the graph (lines 96-105). -/
def exact_uri_values (v : Yaml) : List Str :=
  (exact_match_values v).filterMap uriref_accepts

/-- The unconditional and metadata-literal triples (lines 59-77): concept
type, preferred label, alternate labels, definition and scope note.  The
`if post.get('aliases'):` guard of line 67 is subsumed by
`normalize_aliases`, which sends falsy values to the empty list. -/
def base_graph (subj fn : Str) (post : Post) : List Triple :=
  let g : List Triple := []
  let g := Graph.add g ⟨subj, .rdfType, .skosConcept⟩
  let g := Graph.add g ⟨subj, .prefLabel, .lit (.scalar (.str fn))⟩
  let g := addAll (fun a => ⟨subj, .altLabel, .lit a⟩) g (normalize_aliases post.aliases)
  let g := if post.definition.falsy then g
           else Graph.add g ⟨subj, .definition, .lit post.definition⟩
  let g := if post.scopeNote.falsy then g
           else Graph.add g ⟨subj, .scopeNote, .lit post.scopeNote⟩
  g

/-- The graph-building part of `generate_hierarchical_skos` (lines 59-105)
together with the parsed relation link lists, which the HTML rendering reuses
(lines 153-163).  A TypeError raised by `parse_links` propagates. -/
structure BuildResult where
  graph : List Triple
  broader_links : List Str
  narrower_links : List Str
  related_links : List Str
deriving DecidableEq, Repr

def build_graph (filename_raw : Str) (post : Post) : Except PyError BuildResult :=
  let subject_uri := clean_uri filename_raw
  let g := base_graph subject_uri filename_raw post
  match parse_links post.broader with
  | .error e => .error e
  | .ok broader_links =>
    let g := addAll (relTriple subject_uri .broader) g broader_links
    match parse_links post.narrower with
    | .error e => .error e
    | .ok narrower_links =>
      let g := addAll (relTriple subject_uri .narrower) g narrower_links
      match parse_links post.related with
      | .error e => .error e
      | .ok related_links =>
        let g := addAll (relTriple subject_uri .related) g related_links
        let g := addAll (fun u => ⟨subject_uri, .exactMatch, .uri u⟩) g
            (exact_uri_values post.exactMatch)
        .ok ⟨g, broader_links, narrower_links, related_links⟩

/-!
Rendering (lines 107-178).  Brace and apostrophe characters inside the HTML
template are written with character escapes.
-/

/-- Python `str()` of a scalar front-matter value. -/
def pyScalarStr : YamlScalar → Str
  | .str s => s
  | .int n => (toString n).toList
  | .bool true => "True".toList
  | .bool false => "False".toList
  | .null => "None".toList

/-- Python `repr()` of a scalar, as it appears inside `str()` of a list. -/
def pyScalarRepr : YamlScalar → Str
  | .str s => "\x27".toList ++ s ++ "\x27".toList
  | v => pyScalarStr v

/-- Interpose a separator between rendered items. -/
def joinSep (sep : Str) : List Str → Str
  | [] => []
  | [x] => x
  | x :: xs => x ++ sep ++ joinSep sep xs

/-- Python `str()` of a front-matter value, used where the f-string template
interpolates a raw metadata value. -/
def pyStr : Yaml → Str
  | .scalar v => pyScalarStr v
  | .list items => "[".toList ++ joinSep ", ".toList (items.map pyScalarRepr) ++ "]".toList

/-- Name of a predicate in the serialized graph. -/
def predName : Predicate → Str
  | .rdfType => "@type".toList
  | .prefLabel => "skos:prefLabel".toList
  | .altLabel => "skos:altLabel".toList
  | .definition => "skos:definition".toList
  | .scopeNote => "skos:scopeNote".toList
  | .broader => "skos:broader".toList
  | .narrower => "skos:narrower".toList
  | .related => "skos:related".toList
  | .exactMatch => "skos:exactMatch".toList

/-- Textual form of a triple object in the serialized graph. -/
def objText : Obj → Str
  | .skosConcept => "skos:Concept".toList
  | .lit v => pyStr v ++ "@".toList ++ LANG
  | .uri u => u

/-- Modelled from the spec: `g.serialize(format='json-ld', indent=4)`
(line 108) is performed by the external graph-serialization library, which is
not code under `src/`; the spec calls it "a pure function of the graph; no
additional logic beyond what the graph-serialization library performs".
Modelled as a deterministic textual rendering of the triple list. -/
def serialize_jsonld (g : List Triple) : Str :=
  "\x7b \"@graph\": [ ".toList ++
    (g.map fun t =>
      "(".toList ++ t.subj ++ ", ".toList ++ predName t.pred ++ ", ".toList ++
        objText t.obj ++ ") ".toList).flatten ++
  "] \x7d".toList

/-- Embeds `make_list` (lines 116-117): a non-empty link list becomes one
`<li>` anchor per name, whose target is the name with spaces turned into
hyphens plus `.html` and whose text is the name itself; an empty list becomes
the single placeholder item `<li>None</li>`. -/
def make_list (links : List Str) : Str :=
  if links.isEmpty then "<li>None</li>".toList
  else
    (links.map fun l =>
      "<li><a href=\"".toList ++ hyphenate l ++ ".html\">".toList ++ l ++
        "</a></li>".toList).flatten

/-- The definition paragraph (line 147):
`post.get('definition', 'No definition provided.')`.  A front matter whose
`definition` key holds an explicit null is conflated with an absent key here
(both are embedded as null). -/
def definition_text (post : Post) : Str :=
  match post.definition with
  | .scalar .null => "No definition provided.".toList
  | v => pyStr v

/-- The HTML f-string template (lines 119-173) up to the broader list: head,
style, embedded serialization, heading and definition paragraph.  Literal
braces of the CSS (written `{{`/`}}` in the f-string) and apostrophes appear
via character escapes. -/
def html_before_lists (filename_raw : Str) (post : Post) (jsonld_data : Str) : Str :=
  "\n<!DOCTYPE html>\n<html lang=\"en\">\n<head>\n    <meta charset=\"UTF-8\">\n    <title>".toList ++
  filename_raw ++
  " (SKOS)</title>\n    <style>\n        body \x7b font-family: \x27Segoe UI\x27, sans-serif; max-width: 700px; margin: 2rem auto; background: #f4f4f4; \x7d\n        .card \x7b background: white; padding: 30px; border-radius: 8px; box-shadow: 0 2px 5px rgba(0,0,0,0.1); \x7d\n        h1 \x7b margin-top: 0; color: #2c3e50; border-bottom: 2px solid #eee; padding-bottom: 10px; \x7d\n        .tag \x7b background: #e1ecf4; color: #39739d; padding: 2px 6px; border-radius: 4px; font-size: 0.9em; \x7d\n        .section \x7b margin-top: 20px; \x7d\n        .section h3 \x7b font-size: 0.9rem; text-transform: uppercase; color: #888; margin-bottom: 5px; \x7d\n        ul \x7b list-style: none; padding: 0; \x7d\n        li \x7b margin-bottom: 5px; \x7d\n        a \x7b text-decoration: none; color: #0366d6; \x7d\n        a:hover \x7b text-decoration: underline; \x7d\n    </style>\n    <script type=\"application/ld+json\">\n    ".toList ++
  jsonld_data ++
  "\n    </script>\n</head>\n<body>\n    <div class=\"card\">\n        <h1>".toList ++
  filename_raw ++
  "</h1>\n        \n        <div class=\"section\">\n            <h3>Definition</h3>\n            <p>".toList ++
  definition_text post ++
  "</p>\n        </div>\n\n        <div style=\"display: flex; gap: 20px;\">\n            <div class=\"section\" style=\"flex:1\">\n                <h3>⬆ Broader (Parent)</h3>\n                ".toList

/-- The template text between the broader and narrower lists. -/
def html_between_broader_narrower : Str :=
  "\n            </div>\n            <div class=\"section\" style=\"flex:1\">\n                <h3>⬇ Narrower (Children)</h3>\n                ".toList

/-- The template text between the narrower and related lists. -/
def html_between_narrower_related : Str :=
  "\n            </div>\n        </div>\n\n        <div class=\"section\">\n            <h3>↔ Related</h3>\n            ".toList

/-- The template text after the related list: the external-ID hyperlink
(`{exact_match if exact_match else ...}`, line 168) and the document close. -/
def html_after_lists (post : Post) : Str :=
  "\n        </div>\n        \n        <div class=\"section\">\n            <h3>External ID</h3>\n            <p><a href=\"".toList ++
  (if post.exactMatch.falsy then "#".toList else pyStr post.exactMatch) ++
  "\">".toList ++
  (if post.exactMatch.falsy then "None".toList else pyStr post.exactMatch) ++
  "</a></p>\n        </div>\n    </div>\n</body>\n</html>\n    ".toList

/-- Embeds the HTML f-string template (lines 119-173): the fixed template
text with the interpolated expressions substituted in place; each relation
list appears as `<ul>{make_list(...)}</ul>` (lines 153, 157, 163). -/
def html_content (filename_raw : Str) (post : Post) (br : BuildResult)
    (jsonld_data : Str) : Str :=
  html_before_lists filename_raw post jsonld_data ++
  ("<ul>".toList ++ make_list br.broader_links ++ "</ul>".toList) ++
  html_between_broader_narrower ++
  ("<ul>".toList ++ make_list br.narrower_links ++ "</ul>".toList) ++
  html_between_narrower_related ++
  ("<ul>".toList ++ make_list br.related_links ++ "</ul>".toList) ++
  html_after_lists post

/-- What one run observably does: the messages printed and the
(filename, content) pairs written, in order. -/
structure RunResult where
  messages : List Str
  written : List (Str × Str)
deriving DecidableEq, Repr

/-- Embeds `generate_hierarchical_skos` (lines 44-178).  `loaded` is the
outcome of `frontmatter.load` on the opened file: `none` when `open` raised
`FileNotFoundError` (the one exception the function catches, lines 52-57),
`some post` otherwise.  `file_path` is the raw argument and `filename_raw`
the base name without extension (line 49).  An uncaught TypeError from
`parse_links` aborts the run before anything is written. -/
def generate_hierarchical_skos (file_path filename_raw : Str)
    (loaded : Option Post) : Except PyError RunResult :=
  match loaded with
  | none => .ok ⟨["Error: File ".toList ++ file_path ++ " not found.".toList], []⟩
  | some post =>
    match build_graph filename_raw post with
    | .error e => .error e
    | .ok br =>
      let jsonld_data := serialize_jsonld br.graph
      let output_json_path := filename_raw ++ ".jsonld".toList
      let html := html_content filename_raw post br jsonld_data
      let output_html_path := filename_raw ++ ".html".toList
      .ok ⟨["✔ SKOS JSON-LD Generated: ".toList ++ output_json_path,
            "✔ HTML Visualization Generated: ".toList ++ output_html_path],
           [(output_json_path, jsonld_data), (output_html_path, html)]⟩

/-!
Lemmas about the graph store.
-/

theorem mem_add_iff {g : List Triple} {t t' : Triple} :
    t' ∈ Graph.add g t ↔ t' ∈ g ∨ t' = t := by
  unfold Graph.add
  split
  · rename_i hm
    constructor
    · exact fun h => Or.inl h
    · rintro (h | rfl)
      · exact h
      · exact hm
  · simp [List.mem_append]

theorem nodup_add {g : List Triple} {t : Triple} (h : g.Nodup) :
    (Graph.add g t).Nodup := by
  unfold Graph.add
  split
  · exact h
  · rename_i hm
    rw [List.nodup_append]
    refine ⟨h, List.nodup_singleton t, ?_⟩
    intro a ha hb
    rw [List.mem_singleton] at hb
    subst hb
    exact hm ha

theorem mem_addAll_iff {f : α → Triple} {xs : List α} {g : List Triple} {t : Triple} :
    t ∈ addAll f g xs ↔ t ∈ g ∨ ∃ x ∈ xs, t = f x := by
  induction xs generalizing g with
  | nil => simp [addAll]
  | cons x xs ih =>
    show t ∈ addAll f (Graph.add g (f x)) xs ↔ _
    rw [ih, mem_add_iff]
    simp only [List.mem_cons]
    constructor
    · rintro ((h | rfl) | ⟨y, hy, rfl⟩)
      · exact Or.inl h
      · exact Or.inr ⟨x, Or.inl rfl, rfl⟩
      · exact Or.inr ⟨y, Or.inr hy, rfl⟩
    · rintro (h | ⟨y, (rfl | hy), rfl⟩)
      · exact Or.inl (Or.inl h)
      · exact Or.inl (Or.inr rfl)
      · exact Or.inr ⟨y, hy, rfl⟩

theorem nodup_addAll {f : α → Triple} {xs : List α} {g : List Triple}
    (h : g.Nodup) : (addAll f g xs).Nodup := by
  induction xs generalizing g with
  | nil => exact h
  | cons x xs ih => exact ih (nodup_add h)

theorem filter_add_of_neg {g : List Triple} {t : Triple} {p : Triple → Bool}
    (h : p t = false) : (Graph.add g t).filter p = g.filter p := by
  unfold Graph.add
  split
  · rfl
  · rw [List.filter_append]
    simp [List.filter, h]

theorem filter_add_of_pos {g : List Triple} {t : Triple} {p : Triple → Bool}
    (hp : p t = true) (hm : t ∉ g) :
    (Graph.add g t).filter p = g.filter p ++ [t] := by
  unfold Graph.add
  rw [if_neg hm, List.filter_append]
  simp [List.filter, hp]

theorem filter_addAll_of_neg {f : α → Triple} {xs : List α} {g : List Triple}
    {p : Triple → Bool} (h : ∀ x ∈ xs, p (f x) = false) :
    (addAll f g xs).filter p = g.filter p := by
  induction xs generalizing g with
  | nil => rfl
  | cons x xs ih =>
    show (addAll f (Graph.add g (f x)) xs).filter p = _
    rw [ih fun y hy => h y (List.mem_cons_of_mem x hy),
      filter_add_of_neg (h x (List.mem_cons_self x xs))]

/-!
Lemmas about bracket stripping, hyphenation and percent-encoding.
-/

theorem stripPair_open_cons (s : Str) :
    stripPair '[' '[' ('[' :: '[' :: s) = stripPair '[' '[' s := by
  simp [stripPair]

theorem stripPair_open_append : ∀ s : Str,
    stripPair '[' '[' (s ++ [']', ']']) = stripPair '[' '[' s ++ [']', ']']
  | [] => by decide
  | [c] => by
    have h : ¬ (c = '[' ∧ (']' : Char) = '[') := by
      rintro ⟨_, h⟩
      exact absurd h (by decide)
    simp [stripPair, h]
  | c₁ :: c₂ :: t => by
    by_cases h : c₁ = '[' ∧ c₂ = '['
    · simp only [List.cons_append, stripPair, if_pos h]
      exact stripPair_open_append t
    · simp only [List.cons_append, stripPair, if_neg h]
      exact congrArg (c₁ :: ·) (stripPair_open_append (c₂ :: t))

theorem stripPair_close_append : ∀ s : Str,
    stripPair ']' ']' (s ++ [']', ']']) = stripPair ']' ']' s
  | [] => by decide
  | [c] => by
    by_cases hc : c = ']'
    · subst hc
      decide
    · have h : ¬ (c = ']' ∧ (']' : Char) = ']') := by
        rintro ⟨h, _⟩
        exact hc h
      simp [stripPair, h]
      exact fun h' => absurd h' hc
  | c₁ :: c₂ :: t => by
    by_cases h : c₁ = ']' ∧ c₂ = ']'
    · simp only [List.cons_append, stripPair, if_pos h]
      exact stripPair_close_append t
    · simp only [List.cons_append, stripPair, if_neg h]
      exact congrArg (c₁ :: ·) (stripPair_close_append (c₂ :: t))

theorem stripBrackets_wrap (s : Str) :
    stripBrackets ('[' :: '[' :: (s ++ [']', ']'])) = stripBrackets s := by
  unfold stripBrackets
  rw [stripPair_open_cons, stripPair_open_append, stripPair_close_append]

theorem stripPair_id {a b : Char} : ∀ s : Str, (∀ c ∈ s, c ≠ a) → stripPair a b s = s
  | [], _ => rfl
  | [_], _ => rfl
  | c₁ :: c₂ :: t, h => by
    have h1 : ¬ (c₁ = a ∧ c₂ = b) := by
      rintro ⟨ha, _⟩
      exact h c₁ (List.mem_cons_self _ _) ha
    rw [stripPair, if_neg h1,
      stripPair_id (c₂ :: t) fun c hc => h c (List.mem_cons_of_mem _ hc)]

theorem quote_id : ∀ s : Str, (∀ c ∈ s, quoteSafe c = true) → quote s = s
  | [], _ => rfl
  | c :: t, h => by
    rw [quote, quoteChar, if_pos (h c (List.mem_cons_self _ _)),
      quote_id t fun x hx => h x (List.mem_cons_of_mem _ hx)]
    rfl

theorem hyphenate_id : ∀ s : Str, (∀ c ∈ s, c ≠ ' ') → hyphenate s = s
  | [], _ => rfl
  | c :: t, h => by
    unfold hyphenate
    rw [List.map_cons, if_neg (h c (List.mem_cons_self _ _))]
    have := hyphenate_id t fun x hx => h x (List.mem_cons_of_mem _ hx)
    unfold hyphenate at this
    rw [this]

/-!
Lemmas about the link-pattern search.
-/

theorem takeWhile_append_all {p : Char → Bool} :
    ∀ {xs : Str} (ys : Str), (∀ x ∈ xs, p x = true) →
      (xs ++ ys).takeWhile p = xs ++ ys.takeWhile p
  | [], ys, _ => rfl
  | x :: xs, ys, h => by
    rw [List.cons_append, List.takeWhile_cons, h x (List.mem_cons_self _ _),
      takeWhile_append_all ys fun c hc => h c (List.mem_cons_of_mem _ hc)]
    rfl

theorem dropWhile_append_all {p : Char → Bool} :
    ∀ {xs : Str} (ys : Str), (∀ x ∈ xs, p x = true) →
      (xs ++ ys).dropWhile p = ys.dropWhile p
  | [], ys, _ => rfl
  | x :: xs, ys, h => by
    rw [List.cons_append, List.dropWhile_cons, h x (List.mem_cons_self _ _)]
    exact dropWhile_append_all ys fun c hc => h c (List.mem_cons_of_mem _ hc)

theorem matchAt_wrap {name rest : Str} (hne : name ≠ [])
    (hnc : ∀ c ∈ name, nameChar c = true) :
    matchAt ('[' :: '[' :: (name ++ ']' :: ']' :: rest)) = some name := by
  have htk : (name ++ ']' :: ']' :: rest).takeWhile nameChar = name := by
    rw [takeWhile_append_all _ hnc, List.takeWhile_cons]
    simp [nameChar]
  have hdp : (name ++ ']' :: ']' :: rest).dropWhile nameChar = ']' :: ']' :: rest := by
    rw [dropWhile_append_all _ hnc, List.dropWhile_cons]
    simp [nameChar]
  simp [matchAt, htk, hdp, hne]

theorem matchAt_wrap_alias {name als rest : Str} (hne : name ≠ [])
    (hnc : ∀ c ∈ name, nameChar c = true) (hae : als ≠ [])
    (hac : ∀ c ∈ als, aliasChar c = true) :
    matchAt ('[' :: '[' :: (name ++ '|' :: (als ++ ']' :: ']' :: rest))) = some name := by
  have htk : (name ++ '|' :: (als ++ ']' :: ']' :: rest)).takeWhile nameChar = name := by
    rw [takeWhile_append_all _ hnc, List.takeWhile_cons]
    simp [nameChar]
  have hdp : (name ++ '|' :: (als ++ ']' :: ']' :: rest)).dropWhile nameChar =
      '|' :: (als ++ ']' :: ']' :: rest) := by
    rw [dropWhile_append_all _ hnc, List.dropWhile_cons]
    simp [nameChar]
  have htk₂ : (als ++ ']' :: ']' :: rest).takeWhile aliasChar = als := by
    rw [takeWhile_append_all _ hac, List.takeWhile_cons]
    simp [aliasChar]
  have hdp₂ : (als ++ ']' :: ']' :: rest).dropWhile aliasChar = ']' :: ']' :: rest := by
    rw [dropWhile_append_all _ hac, List.dropWhile_cons]
    simp [aliasChar]
  simp [matchAt, htk, hdp, htk₂, hdp₂, hne, hae]

theorem matchAt_none_of_head_ne {c : Char} (s : Str) (h : c ≠ '[') :
    matchAt (c :: s) = none := by
  cases s with
  | nil => rfl
  | cons c₂ rest =>
    have : ¬ (c = '[' ∧ c₂ = '[') := fun hh => h hh.1
    simp only [matchAt, if_neg this]

theorem searchLink_append_no_bracket :
    ∀ {pre : Str} (s : Str), (∀ c ∈ pre, c ≠ '[') →
      searchLink (pre ++ s) = searchLink s
  | [], _, _ => rfl
  | c :: pre, s, h => by
    rw [List.cons_append]
    show (match matchAt (c :: (pre ++ s)) with
      | some r => some r
      | none => searchLink (pre ++ s)) = searchLink s
    rw [matchAt_none_of_head_ne _ (h c (List.mem_cons_self _ _))]
    exact searchLink_append_no_bracket s fun x hx => h x (List.mem_cons_of_mem _ hx)

/-- Whether the two-character substring `[[` occurs anywhere in the string;
without it the regex of line 36 cannot match. -/
def hasOpen : Str → Bool
  | c₁ :: c₂ :: rest => (c₁ = '[' && c₂ = '[') || hasOpen (c₂ :: rest)
  | _ => false

theorem searchLink_none_of_no_open : ∀ s : Str, hasOpen s = false → searchLink s = none
  | [] => fun _ => rfl
  | [c] => fun _ => by
    show (match matchAt [c] with
      | some r => some r
      | none => searchLink []) = none
    cases hc : matchAt [c] with
    | none => rfl
    | some r => exact absurd hc (by simp [matchAt])
  | c₁ :: c₂ :: t => fun h => by
    rw [hasOpen, Bool.or_eq_false_iff] at h
    obtain ⟨h1, h2⟩ := h
    have hne : ¬ (c₁ = '[' ∧ c₂ = '[') := by
      rintro ⟨rfl, rfl⟩
      simp at h1
    show (match matchAt (c₁ :: c₂ :: t) with
      | some r => some r
      | none => searchLink (c₂ :: t)) = none
    rw [show matchAt (c₁ :: c₂ :: t) = none by simp only [matchAt, if_neg hne]]
    exact searchLink_none_of_no_open (c₂ :: t) h2

theorem extractLink_verbatim {s : Str} (h : hasOpen s = false) : extractLink s = s := by
  rw [extractLink, searchLink_none_of_no_open s h]
  rfl

/-!
Lemmas about `parse_links` and the graph builder.
-/

theorem link_items_strs : ∀ ss : List Str,
    link_items (ss.map fun s => Yaml.scalar (.str s)) = .ok (ss.map extractLink)
  | [] => rfl
  | s :: ss => by
    simp only [List.map_cons, link_items, link_items_strs ss]
    rfl

/-- Whether a relation field value is a shape on which `parse_links` cannot
raise: anything but a list containing a non-string item. -/
def shape_safe : Yaml → Bool
  | .list items => items.all fun i => match i with | .str _ => true | _ => false
  | _ => true

theorem parse_links_ok_of_shape_safe (v : Yaml) (h : shape_safe v = true) :
    ∃ ls, parse_links v = .ok ls := by
  unfold parse_links normalize_relation
  by_cases hf : v.falsy
  · exact ⟨[], by rw [if_pos hf]; rfl⟩
  · rw [if_neg hf]
    match v with
    | .scalar (.str s) => exact ⟨[extractLink s], rfl⟩
    | .scalar (.int n) => exact ⟨[], rfl⟩
    | .scalar (.bool b) => exact ⟨[], rfl⟩
    | .scalar .null => exact ⟨[], rfl⟩
    | .list items =>
      simp only [shape_safe, List.all_eq_true] at h
      have : ∃ ss : List Str, items = ss.map YamlScalar.str := by
        clear hf
        induction items with
        | nil => exact ⟨[], rfl⟩
        | cons i items ih =>
          obtain ⟨ss, hss⟩ := ih fun x hx => h x (List.mem_cons_of_mem _ hx)
          match i, h i (List.mem_cons_self _ _) with
          | .str s, _ => exact ⟨s :: ss, by rw [hss]; rfl⟩
      obtain ⟨ss, rfl⟩ := this
      refine ⟨ss.map extractLink, ?_⟩
      show link_items ((ss.map YamlScalar.str).map Yaml.scalar) = _
      rw [show (ss.map YamlScalar.str).map Yaml.scalar =
        ss.map fun s => Yaml.scalar (.str s) from by rw [List.map_map]; rfl]
      exact link_items_strs ss

theorem link_items_error : ∀ items : List Yaml,
    (∃ i ∈ items, ∀ s, i ≠ .scalar (.str s)) → link_items items = .error .typeError
  | i :: items, h => by
    obtain ⟨j, hj, hjs⟩ := h
    rcases List.mem_cons.mp hj with rfl | hj2
    · match j, hjs with
      | .scalar (.int n), _ => rfl
      | .scalar (.bool b), _ => rfl
      | .scalar .null, _ => rfl
      | .list l, _ => rfl
      | .scalar (.str s), hjs => exact absurd rfl (hjs s)
    · match i with
      | .scalar (.str s) =>
        rw [link_items, link_items_error items ⟨j, hj2, hjs⟩]
        rfl
      | .scalar (.int n) => rfl
      | .scalar (.bool b) => rfl
      | .scalar .null => rfl
      | .list l => rfl

theorem parse_links_list_error {items : List YamlScalar}
    (h : ∃ i ∈ items, ∀ s, i ≠ YamlScalar.str s) :
    parse_links (.list items) = .error .typeError := by
  obtain ⟨i, hi, his⟩ := h
  have hne : items ≠ [] := by
    rintro rfl
    exact absurd hi (List.not_mem_nil i)
  have hf : (Yaml.list items).falsy = false := by
    match items, hne with
    | j :: items, _ => rfl
  unfold parse_links normalize_relation
  rw [hf]
  show link_items (items.map Yaml.scalar) = _
  refine link_items_error _ ⟨.scalar i, List.mem_map_of_mem _ hi, ?_⟩
  intro s hs
  cases hs
  exact his s rfl

/-- The graph produced by a successful run, laid out as the four insertion
stages that follow the base triples. -/
def relation_graph (fn : Str) (post : Post) (bl nl rl : List Str) : List Triple :=
  addAll (fun u => ⟨clean_uri fn, .exactMatch, .uri u⟩)
    (addAll (relTriple (clean_uri fn) .related)
      (addAll (relTriple (clean_uri fn) .narrower)
        (addAll (relTriple (clean_uri fn) .broader)
          (base_graph (clean_uri fn) fn post) bl) nl) rl)
    (exact_uri_values post.exactMatch)

theorem build_graph_ok {fn : Str} {post : Post} {br : BuildResult}
    (h : build_graph fn post = .ok br) :
    parse_links post.broader = .ok br.broader_links ∧
    parse_links post.narrower = .ok br.narrower_links ∧
    parse_links post.related = .ok br.related_links ∧
    br.graph = relation_graph fn post br.broader_links br.narrower_links br.related_links := by
  cases hb : parse_links post.broader with
  | error e => simp [build_graph, hb] at h
  | ok bl =>
    cases hn : parse_links post.narrower with
    | error e => simp [build_graph, hb, hn] at h
    | ok nl =>
      cases hr : parse_links post.related with
      | error e => simp [build_graph, hb, hn, hr] at h
      | ok rl =>
        simp only [build_graph, hb, hn, hr] at h
        cases h
        exact ⟨rfl, rfl, rfl, rfl⟩

theorem build_graph_error {fn : Str} {post : Post} {e : PyError}
    (hb : parse_links post.broader = .error e) :
    build_graph fn post = .error e := by
  simp [build_graph, hb]

theorem mem_base_graph {subj fn : Str} {post : Post} {t : Triple}
    (ht : t ∈ base_graph subj fn post) :
    t.pred = .rdfType ∨ t.pred = .prefLabel ∨ t.pred = .altLabel ∨
      t.pred = .definition ∨ t.pred = .scopeNote := by
  unfold base_graph at ht
  split_ifs at ht <;>
    simp only [mem_add_iff, mem_addAll_iff, List.not_mem_nil, false_or] at ht <;>
    aesop

theorem base_graph_pred {subj fn : Str} {post : Post} :
    ∀ t ∈ base_graph subj fn post,
      t.pred ≠ .broader ∧ t.pred ≠ .narrower ∧ t.pred ≠ .related ∧
        t.pred ≠ .exactMatch := by
  intro t ht
  rcases mem_base_graph ht with h | h | h | h | h <;> rw [h] <;>
    exact ⟨by decide, by decide, by decide, by decide⟩

theorem base_graph_nodup {subj fn : Str} {post : Post} :
    (base_graph subj fn post).Nodup := by
  unfold base_graph
  split_ifs <;>
    first
      | exact nodup_add (nodup_add (nodup_addAll (nodup_add (nodup_add List.nodup_nil))))
      | exact nodup_add (nodup_addAll (nodup_add (nodup_add List.nodup_nil)))
      | exact nodup_addAll (nodup_add (nodup_add List.nodup_nil))

theorem relation_graph_nodup {fn : Str} {post : Post} {bl nl rl : List Str} :
    (relation_graph fn post bl nl rl).Nodup :=
  nodup_addAll (nodup_addAll (nodup_addAll (nodup_addAll base_graph_nodup)))

theorem searchLink_of_matchAt {s r : Str} (hm : matchAt s = some r) :
    searchLink s = some r := by
  match s with
  | [] => exact absurd hm (by simp [matchAt])
  | c :: rest =>
    show (match matchAt (c :: rest) with
      | some r => some r
      | none => searchLink rest) = some r
    rw [hm]

/-!
Concrete evaluations of the embedded functions on the specification's
examples.
-/

theorem clean_uri_examples :
    clean_uri "Climate Change".toList = "http://example.org/kb/Climate-Change".toList ∧
    clean_uri "[[Climate Change]]".toList = "http://example.org/kb/Climate-Change".toList ∧
    clean_uri "A&B".toList = "http://example.org/kb/A%26B".toList := by
  refine ⟨?_, ?_, ?_⟩ <;> decide

theorem extractLink_examples :
    extractLink "[[Climate Change]]".toList = "Climate Change".toList ∧
    extractLink "[[Climate Change|CC]]".toList = "Climate Change".toList ∧
    extractLink "Climate Change".toList = "Climate Change".toList ∧
    extractLink "x [[A]] y [[B]]".toList = "A".toList ∧
    extractLink "[[]]".toList = "[[]]".toList := by
  refine ⟨?_, ?_, ?_, ?_, ?_⟩ <;> decide

theorem parse_links_examples :
    parse_links (Yaml.scalar (.str "[[X]]".toList)) = .ok ["X".toList] ∧
    parse_links (Yaml.list [.str "[[A]]".toList, .str "B".toList]) =
      .ok ["A".toList, "B".toList] ∧
    parse_links (Yaml.scalar (.int 7)) = .ok [] ∧
    parse_links (Yaml.scalar .null) = .ok [] := by
  refine ⟨?_, ?_, ?_, ?_⟩ <;> decide

theorem make_list_examples :
    make_list [] = "<li>None</li>".toList ∧
    make_list ["Parent A".toList] =
      "<li><a href=\"Parent-A.html\">Parent A</a></li>".toList := by
  refine ⟨?_, ?_⟩ <;> decide

/-!
The claims.
-/

/-- Claim C5: for every display name `N`, building an identifier from the
bare name `N` and from the bracket-wrapped form `[[N]]` yields the identical
URI: strip brackets, replace each space with a hyphen, percent-encode, and
prepend the fixed namespace prefix. -/
theorem c5_bracket_wrap_same_identifier (N : Str) :
    clean_uri ('[' :: '[' :: (N ++ [']', ']'])) = clean_uri N := by
  unfold clean_uri uri_suffix
  rw [stripBrackets_wrap]

/-- Claim C2 counterexample: for the name `A&B`, whose encoded suffix is
`A%26B`, applying the identifier builder to the already-bracket-free,
already-percent-encoded name re-encodes the percent sign and yields a
different URI; composing the builder with itself on its own full output also
differs, since the scheme colon gets re-encoded. -/
theorem c2_counterexample :
    clean_uri (uri_suffix "A&B".toList) ≠ clean_uri "A&B".toList ∧
    clean_uri (clean_uri "A&B".toList) ≠ clean_uri "A&B".toList := by
  constructor <;> decide

/-- Claim C2 (amended): the identifier builder is idempotent only on names
whose bracket-stripped, hyphenated form consists of characters the
percent-encoder leaves unchanged (letters, digits, `_ . - ~ /`); for such a
name, applying the builder to the already-processed name yields the same URI
as applying it once to the original name.  (For any name whose processed
form contains an encoded character, the `%` is re-encoded, refuting
idempotence in general.) -/
theorem c2_amended_idempotent {n : Str}
    (h : ∀ c ∈ hyphenate (stripBrackets n), quoteSafe c = true) :
    clean_uri (uri_suffix n) = clean_uri n := by
  have h1 : uri_suffix n = hyphenate (stripBrackets n) := quote_id _ h
  have hnb : ∀ c ∈ hyphenate (stripBrackets n), c ≠ '[' := by
    intro c hc
    have hs := h c hc
    rintro rfl
    exact absurd hs (by decide)
  have hnc : ∀ c ∈ hyphenate (stripBrackets n), c ≠ ']' := by
    intro c hc
    have hs := h c hc
    rintro rfl
    exact absurd hs (by decide)
  have hns : ∀ c ∈ hyphenate (stripBrackets n), c ≠ ' ' := by
    intro c hc
    have hs := h c hc
    rintro rfl
    exact absurd hs (by decide)
  have h2 : uri_suffix (hyphenate (stripBrackets n)) = hyphenate (stripBrackets n) := by
    rw [uri_suffix, stripBrackets, stripPair_id _ hnb, stripPair_id _ hnc,
      hyphenate_id _ hns]
    exact quote_id _ h
  unfold clean_uri
  rw [h1, h2, ← h1]

theorem c2_amended_idempotent_witness :
    (∀ c ∈ hyphenate (stripBrackets "Climate Change".toList), quoteSafe c = true) ∧
    clean_uri (uri_suffix "Climate Change".toList) = clean_uri "Climate Change".toList :=
  ⟨by decide, c2_amended_idempotent (by decide)⟩

/-- Claim C1 counterexample: for the aliases field a truthy non-string,
non-list value (the number 5) is normalized to the one-element list holding
it, not to the empty list, so normalization is not identical across the four
fields: the relation fields send the same value to the empty list. -/
theorem c1_counterexample :
    normalize_aliases (Yaml.scalar (.int 5)) = [Yaml.scalar (.int 5)] ∧
    normalize_relation (Yaml.scalar (.int 5)) = [] ∧
    normalize_aliases (Yaml.scalar (.int 5)) ≠ normalize_relation (Yaml.scalar (.int 5)) := by
  refine ⟨rfl, rfl, ?_⟩
  decide

/-- Claim C1 (amended): normalization is total and never an error for all
four fields, and agrees across them on null, strings and lists: null (and
any falsy value) gives the empty sequence, a nonempty string gives the
one-item sequence, a list is used as-is.  The fields differ on other shapes:
`broader`/`narrower`/`related` treat a non-string non-list value as empty,
while `aliases` wraps a truthy such value into a one-element sequence. -/
theorem c1_amended_normalization (v : Yaml) (s : Str) (l : List YamlScalar) :
    normalize_relation (Yaml.scalar .null) = [] ∧
    normalize_aliases (Yaml.scalar .null) = [] ∧
    (s ≠ [] →
      normalize_relation (Yaml.scalar (.str s)) = [Yaml.scalar (.str s)] ∧
      normalize_aliases (Yaml.scalar (.str s)) = [Yaml.scalar (.str s)]) ∧
    normalize_relation (Yaml.list l) = l.map Yaml.scalar ∧
    normalize_aliases (Yaml.list l) = l.map Yaml.scalar ∧
    ((∀ s', v ≠ Yaml.scalar (.str s')) → (∀ l', v ≠ Yaml.list l') →
      normalize_relation v = [] ∧ (v.falsy = false → normalize_aliases v = [v])) := by
  refine ⟨rfl, rfl, ?_, ?_, ?_, ?_⟩
  · intro hs
    have hf : (Yaml.scalar (.str s)).falsy = false := by
      match s, hs with
      | c :: t, _ => rfl
    constructor <;> simp [normalize_relation, normalize_aliases, hf]
  · match l with
    | [] => rfl
    | x :: l => rfl
  · match l with
    | [] => rfl
    | x :: l => rfl
  · intro hs' hl'
    match v with
    | .scalar (.str s') => exact absurd rfl (hs' s')
    | .list l' => exact absurd rfl (hl' l')
    | .scalar (.int n) =>
      refine ⟨by unfold normalize_relation; split <;> rfl, fun hf => ?_⟩
      simp [normalize_aliases, hf]
    | .scalar (.bool b) =>
      refine ⟨by unfold normalize_relation; split <;> rfl, fun hf => ?_⟩
      simp [normalize_aliases, hf]
    | .scalar .null =>
      refine ⟨rfl, fun hf => ?_⟩
      simp [Yaml.falsy] at hf

theorem c1_amended_normalization_witness :
    normalize_relation (Yaml.scalar (.bool true)) = [] ∧
    normalize_aliases (Yaml.scalar (.bool true)) = [Yaml.scalar (.bool true)] ∧
    normalize_relation (Yaml.scalar (.str "X".toList)) = [Yaml.scalar (.str "X".toList)] := by
  have h := c1_amended_normalization (Yaml.scalar (.bool true)) "X".toList []
  obtain ⟨-, -, hstr, -, -, hother⟩ := h
  obtain ⟨hr, ha⟩ := hother (fun s' hh => by cases hh) (fun l' hh => by cases hh)
  exact ⟨hr, ha rfl, (hstr (by decide)).1⟩

/-- Claim C4 counterexample: for the item `[[ Climate Change ]]` the code
returns the capture group verbatim, ` Climate Change ` with its surrounding
whitespace, not the trimmed `Climate Change` the claim states. -/
theorem c4_counterexample :
    extractLink "[[ Climate Change ]]".toList ≠ "Climate Change".toList ∧
    extractLink "[[ Climate Change ]]".toList = " Climate Change ".toList := by
  constructor <;> decide

/-- Claim C4 (amended): for an item containing a first wiki-link pattern
`[[name]]` or `[[name|anything]]` (name nonempty and free of `|` and `]`,
the preceding text free of `[`, the trailing text arbitrary), link
unwrapping returns the extracted name verbatim — not trimmed of surrounding
whitespace; and an item containing no `[[` at all is returned whole,
unchanged. -/
theorem c4_amended_link_unwrapping {pre name als rest s : Str}
    (hpre : ∀ c ∈ pre, c ≠ '[') (hne : name ≠ [])
    (hnc : ∀ c ∈ name, c ≠ '|' ∧ c ≠ ']')
    (hae : als ≠ []) (hac : ∀ c ∈ als, c ≠ ']')
    (hs : hasOpen s = false) :
    extractLink (pre ++ '[' :: '[' :: (name ++ ']' :: ']' :: rest)) = name ∧
    extractLink (pre ++ '[' :: '[' :: (name ++ '|' :: (als ++ ']' :: ']' :: rest))) = name ∧
    extractLink s = s := by
  have hnc' : ∀ c ∈ name, nameChar c = true := by
    intro c hc
    obtain ⟨h1, h2⟩ := hnc c hc
    simp [nameChar, h1, h2]
  have hac' : ∀ c ∈ als, aliasChar c = true := by
    intro c hc
    simp [aliasChar, hac c hc]
  refine ⟨?_, ?_, extractLink_verbatim hs⟩
  · rw [extractLink, searchLink_append_no_bracket _ hpre,
      searchLink_of_matchAt (matchAt_wrap hne hnc')]
    rfl
  · rw [extractLink, searchLink_append_no_bracket _ hpre,
      searchLink_of_matchAt (matchAt_wrap_alias hne hnc' hae hac')]
    rfl

theorem c4_amended_link_unwrapping_witness :
    extractLink ("x ".toList ++ '[' :: '[' :: ("Parent A".toList ++ ']' :: ']' :: " y".toList)) =
      "Parent A".toList ∧
    extractLink "Climate Change".toList = "Climate Change".toList := by
  have h := @c4_amended_link_unwrapping "x ".toList "Parent A".toList "CC".toList
      " y".toList "Climate Change".toList
      (by decide) (by decide) (by decide) (by decide) (by decide) (by decide)
  exact ⟨h.1, h.2.2⟩

/-- Claim C7 counterexample: a relation field given as a list containing a
number aborts processing: `re.search` raises an uncaught TypeError on the
non-string item, and the whole run fails without writing anything, instead
of passing the item through unchanged. -/
theorem c7_counterexample :
    parse_links (Yaml.list [.int 5]) = .error .typeError ∧
    generate_hierarchical_skos "bad.md".toList "bad".toList
      (some ⟨.scalar .null, .scalar .null, .scalar .null, .list [.int 5],
             .scalar .null, .scalar .null, .scalar .null⟩) =
      .error .typeError := by
  constructor
  · decide
  · decide

/-- Claim C7 (amended): for a relation field given as a list of strings,
processing never aborts — every item passes through the link-unwrapping map
unchanged except for bracket unwrapping; but a list containing an item of
unexpected (non-string) type, such as a number, raises a type error that
aborts the run. -/
theorem c7_amended_list_items :
    (∀ ss : List Str,
      parse_links (Yaml.list (ss.map YamlScalar.str)) = .ok (ss.map extractLink)) ∧
    (∀ items : List YamlScalar, (∃ i ∈ items, ∀ s, i ≠ YamlScalar.str s) →
      parse_links (Yaml.list items) = .error .typeError) := by
  constructor
  · intro ss
    match ss with
    | [] => rfl
    | s :: ss =>
      show parse_links (Yaml.list (.str s :: ss.map .str)) = _
      unfold parse_links normalize_relation
      rw [if_neg (by simp [Yaml.falsy])]
      show link_items ((YamlScalar.str s :: ss.map YamlScalar.str).map Yaml.scalar) = _
      rw [show (YamlScalar.str s :: ss.map YamlScalar.str).map Yaml.scalar =
        (s :: ss).map fun s => Yaml.scalar (.str s) from by simp]
      exact link_items_strs (s :: ss)
  · intro items h
    exact parse_links_list_error h

theorem c7_amended_list_items_witness :
    parse_links (Yaml.list (["[[A]]".toList, "B".toList].map YamlScalar.str)) =
      .ok ["A".toList, "B".toList] ∧
    parse_links (Yaml.list [YamlScalar.str "ok".toList, YamlScalar.int 3]) =
      .error .typeError := by
  constructor
  · rw [c7_amended_list_items.1 ["[[A]]".toList, "B".toList]]
    decide
  · exact c7_amended_list_items.2 _
      ⟨.int 3, by decide, fun s hh => YamlScalar.noConfusion hh⟩

theorem mem_addAll_rel {subj : Str} {P : Predicate} {g : List Triple}
    {links : List Str} {t : Triple}
    (ht : t ∈ addAll (relTriple subj P) g links) : t ∈ g ∨ t.pred = P := by
  rw [mem_addAll_iff] at ht
  rcases ht with h | ⟨x, _, rfl⟩
  · exact Or.inl h
  · exact Or.inr rfl

theorem filter_rel_pair {subj : Str} {g : List Triple} {P : Predicate}
    (hg : ∀ t ∈ g, t.pred ≠ P) {a b : Str} (hab : clean_uri a ≠ clean_uri b) :
    (addAll (relTriple subj P) g [a, b]).filter (fun t => t.pred == P) =
      [relTriple subj P a, relTriple subj P b] := by
  have hfg : g.filter (fun t => t.pred == P) = [] := by
    rw [List.filter_eq_nil_iff]
    intro t ht
    simp [hg t ht]
  have hTa : relTriple subj P a ∉ g := fun hmem => (hg _ hmem) rfl
  have hTb : relTriple subj P b ∉ Graph.add g (relTriple subj P a) := by
    rw [mem_add_iff]
    rintro (hmem | heq)
    · exact (hg _ hmem) rfl
    · simp only [relTriple, Triple.mk.injEq, Obj.uri.injEq, true_and] at heq
      exact hab heq.symm
  show ((Graph.add (Graph.add g (relTriple subj P a)) (relTriple subj P b)).filter _) = _
  rw [filter_add_of_pos (by simp [relTriple]) hTb, filter_add_of_pos (by simp [relTriple]) hTa, hfg]
  rfl

/-- Claim C6: for front matter `broader: ["[[Parent A]]", "Parent B"]` the
produced graph contains exactly two broader triples, whose objects are
exactly the identifiers built from the names `Parent A` and `Parent B`; and
symmetrically for the narrower and related fields. -/
theorem c6_relation_round_trip {fn : Str} {post : Post} {br : BuildResult}
    (h : build_graph fn post = .ok br) :
    (post.broader = Yaml.list [.str "[[Parent A]]".toList, .str "Parent B".toList] →
      br.graph.filter (fun t => t.pred == Predicate.broader) =
        [⟨clean_uri fn, .broader, .uri (clean_uri "Parent A".toList)⟩,
         ⟨clean_uri fn, .broader, .uri (clean_uri "Parent B".toList)⟩]) ∧
    (post.narrower = Yaml.list [.str "[[Parent A]]".toList, .str "Parent B".toList] →
      br.graph.filter (fun t => t.pred == Predicate.narrower) =
        [⟨clean_uri fn, .narrower, .uri (clean_uri "Parent A".toList)⟩,
         ⟨clean_uri fn, .narrower, .uri (clean_uri "Parent B".toList)⟩]) ∧
    (post.related = Yaml.list [.str "[[Parent A]]".toList, .str "Parent B".toList] →
      br.graph.filter (fun t => t.pred == Predicate.related) =
        [⟨clean_uri fn, .related, .uri (clean_uri "Parent A".toList)⟩,
         ⟨clean_uri fn, .related, .uri (clean_uri "Parent B".toList)⟩]) := by
  obtain ⟨hb, hn, hr, hg⟩ := build_graph_ok h
  have hparse : parse_links (Yaml.list [.str "[[Parent A]]".toList, .str "Parent B".toList]) =
      .ok ["Parent A".toList, "Parent B".toList] := by decide
  have hab : clean_uri "Parent A".toList ≠ clean_uri "Parent B".toList := by decide
  refine ⟨fun hf => ?_, fun hf => ?_, fun hf => ?_⟩
  · rw [hf, hparse] at hb
    injection hb with hb2
    rw [hg, relation_graph, ← hb2]
    rw [filter_addAll_of_neg fun x _ => rfl,
      filter_addAll_of_neg fun x _ => rfl,
      filter_addAll_of_neg fun x _ => rfl]
    exact filter_rel_pair (fun t ht => (base_graph_pred t ht).1) hab
  · rw [hf, hparse] at hn
    injection hn with hn2
    rw [hg, relation_graph, ← hn2]
    rw [filter_addAll_of_neg fun x _ => rfl,
      filter_addAll_of_neg fun x _ => rfl]
    refine filter_rel_pair (fun t ht => ?_) hab
    rcases mem_addAll_rel ht with hmem | hP
    · exact (base_graph_pred t hmem).2.1
    · rw [hP]
      decide
  · rw [hf, hparse] at hr
    injection hr with hr2
    rw [hg, relation_graph, ← hr2]
    rw [filter_addAll_of_neg fun x _ => rfl]
    refine filter_rel_pair (fun t ht => ?_) hab
    rcases mem_addAll_rel ht with hmem | hP
    · rcases mem_addAll_rel hmem with hmem2 | hP2
      · exact (base_graph_pred t hmem2).2.2.1
      · rw [hP2]
        decide
    · rw [hP]
      decide

theorem addAll_nil {f : α → Triple} {g : List Triple} : addAll f g [] = g := rfl

theorem build_graph_ok_of_parses (fn : Str) {post : Post} {bl nl rl : List Str}
    (hb : parse_links post.broader = .ok bl)
    (hn : parse_links post.narrower = .ok nl)
    (hr : parse_links post.related = .ok rl) :
    build_graph fn post = .ok ⟨relation_graph fn post bl nl rl, bl, nl, rl⟩ := by
  simp only [build_graph, hb, hn, hr]
  rfl

/-- Claim C10: the triple set built per invocation is duplicate-free — the
graph store inserts a triple only when absent, an invariant preserved by
every insertion — so each relation reference contributes exactly one triple
for its (predicate, resolved identifier) pair, however often the field lists
it. -/
theorem c10_duplicate_free {fn : Str} {post : Post} {br : BuildResult}
    (h : build_graph fn post = .ok br) :
    (∀ (g : List Triple) (t : Triple), g.Nodup → (Graph.add g t).Nodup) ∧
    br.graph.Nodup ∧
    (∀ l ∈ br.broader_links,
      br.graph.count ⟨clean_uri fn, .broader, .uri (clean_uri l)⟩ = 1) ∧
    (∀ l ∈ br.narrower_links,
      br.graph.count ⟨clean_uri fn, .narrower, .uri (clean_uri l)⟩ = 1) ∧
    (∀ l ∈ br.related_links,
      br.graph.count ⟨clean_uri fn, .related, .uri (clean_uri l)⟩ = 1) := by
  obtain ⟨hb, hn, hr, hg⟩ := build_graph_ok h
  have hnodup : br.graph.Nodup := by
    rw [hg]
    exact relation_graph_nodup
  refine ⟨fun g t hg' => nodup_add hg', hnodup, ?_, ?_, ?_⟩
  · intro l hl
    refine List.count_eq_one_of_mem hnodup ?_
    rw [hg, relation_graph, mem_addAll_iff]
    left
    rw [mem_addAll_iff]
    left
    rw [mem_addAll_iff]
    left
    rw [mem_addAll_iff]
    right
    exact ⟨l, hl, rfl⟩
  · intro l hl
    refine List.count_eq_one_of_mem hnodup ?_
    rw [hg, relation_graph, mem_addAll_iff]
    left
    rw [mem_addAll_iff]
    left
    rw [mem_addAll_iff]
    right
    exact ⟨l, hl, rfl⟩
  · intro l hl
    refine List.count_eq_one_of_mem hnodup ?_
    rw [hg, relation_graph, mem_addAll_iff]
    left
    rw [mem_addAll_iff]
    right
    exact ⟨l, hl, rfl⟩

/-- The front matter of the duplicate-reference example `["[[X]]", "X"]`. -/
def c10_post : Post :=
  ⟨.scalar .null, .scalar .null, .scalar .null,
   .list [.str "[[X]]".toList, .str "X".toList],
   .scalar .null, .scalar .null, .scalar .null⟩

/-- The build result for `c10_post` under base name `Note`. -/
def c10_br : BuildResult :=
  ⟨[⟨clean_uri "Note".toList, .rdfType, .skosConcept⟩,
    ⟨clean_uri "Note".toList, .prefLabel, .lit (.scalar (.str "Note".toList))⟩,
    ⟨clean_uri "Note".toList, .broader, .uri (clean_uri "X".toList)⟩],
   ["X".toList, "X".toList], [], []⟩

theorem c10_duplicate_free_witness :
    build_graph "Note".toList c10_post = .ok c10_br ∧
    c10_br.broader_links = ["X".toList, "X".toList] ∧
    c10_br.graph.Nodup ∧
    c10_br.graph.count ⟨clean_uri "Note".toList, .broader, .uri (clean_uri "X".toList)⟩ = 1 := by
  have hb : build_graph "Note".toList c10_post = .ok c10_br := by decide
  have h := c10_duplicate_free hb
  exact ⟨hb, rfl, h.2.1, h.2.2.1 "X".toList (by decide)⟩

theorem exact_uri_values_malformed {s : Str} (hwf : uri_wellformed s = false) :
    exact_uri_values (Yaml.scalar (.str s)) = [] := by
  unfold exact_uri_values exact_match_values
  by_cases hf : (Yaml.scalar (.str s)).falsy = true
  · rw [if_pos hf]
    rfl
  · rw [if_neg hf]
    show List.filterMap uriref_accepts [Yaml.scalar (.str s)] = []
    simp [uriref_accepts, hwf]

/-- Claim C3: when the `exactMatch` field holds a string failing URI
well-formedness, no exactMatch triple at all is emitted into the graph, the
failure is not reported (the only messages are the two success
confirmations), and the run completes, writing both the serialized graph and
the HTML page. -/
theorem c3_exact_match_isolation {fp fn s : Str} {post : Post} {bl nl rl : List Str}
    (hs : post.exactMatch = Yaml.scalar (.str s))
    (hwf : uri_wellformed s = false)
    (hb : parse_links post.broader = .ok bl)
    (hn : parse_links post.narrower = .ok nl)
    (hr : parse_links post.related = .ok rl) :
    ∃ br, build_graph fn post = .ok br ∧
      br.graph.filter (fun t => t.pred == Predicate.exactMatch) = [] ∧
      generate_hierarchical_skos fp fn (some post) = .ok
        ⟨["✔ SKOS JSON-LD Generated: ".toList ++ (fn ++ ".jsonld".toList),
          "✔ HTML Visualization Generated: ".toList ++ (fn ++ ".html".toList)],
         [(fn ++ ".jsonld".toList, serialize_jsonld br.graph),
          (fn ++ ".html".toList, html_content fn post br (serialize_jsonld br.graph))]⟩ := by
  have hbuild := build_graph_ok_of_parses fn hb hn hr
  refine ⟨⟨relation_graph fn post bl nl rl, bl, nl, rl⟩, hbuild, ?_, ?_⟩
  · show (relation_graph fn post bl nl rl).filter (fun t => t.pred == Predicate.exactMatch) = []
    rw [relation_graph, hs, exact_uri_values_malformed hwf, addAll_nil,
      filter_addAll_of_neg fun x _ => rfl,
      filter_addAll_of_neg fun x _ => rfl,
      filter_addAll_of_neg fun x _ => rfl,
      List.filter_eq_nil_iff]
    intro t ht
    simp [(base_graph_pred t ht).2.2.2]
  · simp only [generate_hierarchical_skos, hbuild]

/-- Front matter whose broader field is `["[[Parent A]]", "Parent B"]`. -/
def c6_post : Post :=
  ⟨.scalar .null, .scalar .null, .scalar .null,
   .list [.str "[[Parent A]]".toList, .str "Parent B".toList],
   .scalar .null, .scalar .null, .scalar .null⟩

/-- The build result for `c6_post` under base name `Democracy`. -/
def c6_br : BuildResult :=
  ⟨[⟨clean_uri "Democracy".toList, .rdfType, .skosConcept⟩,
    ⟨clean_uri "Democracy".toList, .prefLabel, .lit (.scalar (.str "Democracy".toList))⟩,
    ⟨clean_uri "Democracy".toList, .broader, .uri (clean_uri "Parent A".toList)⟩,
    ⟨clean_uri "Democracy".toList, .broader, .uri (clean_uri "Parent B".toList)⟩],
   ["Parent A".toList, "Parent B".toList], [], []⟩

theorem c6_relation_round_trip_witness :
    build_graph "Democracy".toList c6_post = .ok c6_br ∧
    c6_br.graph.filter (fun t => t.pred == Predicate.broader) =
      [⟨clean_uri "Democracy".toList, .broader, .uri (clean_uri "Parent A".toList)⟩,
       ⟨clean_uri "Democracy".toList, .broader, .uri (clean_uri "Parent B".toList)⟩] := by
  have hbuild : build_graph "Democracy".toList c6_post = .ok c6_br := by decide
  exact ⟨hbuild, (c6_relation_round_trip hbuild).1 rfl⟩

/-- Front matter carrying the spec's malformed external URI. -/
def c3_post : Post :=
  ⟨.scalar .null, .scalar .null, .scalar .null, .scalar .null, .scalar .null,
   .scalar .null, .scalar (.str "not a valid uri!!".toList)⟩

theorem generate_ok_of_build (fp fn : Str) {post : Post} {br : BuildResult}
    (h : build_graph fn post = .ok br) :
    generate_hierarchical_skos fp fn (some post) = .ok
      ⟨["✔ SKOS JSON-LD Generated: ".toList ++ (fn ++ ".jsonld".toList),
        "✔ HTML Visualization Generated: ".toList ++ (fn ++ ".html".toList)],
       [(fn ++ ".jsonld".toList, serialize_jsonld br.graph),
        (fn ++ ".html".toList, html_content fn post br (serialize_jsonld br.graph))]⟩ := by
  simp only [generate_hierarchical_skos, h]

theorem c3_exact_match_isolation_witness :
    uri_wellformed "not a valid uri!!".toList = false ∧
    ∃ br, build_graph "Concept".toList c3_post = .ok br ∧
      br.graph.filter (fun t => t.pred == Predicate.exactMatch) = [] ∧
      generate_hierarchical_skos "Concept.md".toList "Concept".toList (some c3_post) = .ok
        ⟨["✔ SKOS JSON-LD Generated: ".toList ++ ("Concept".toList ++ ".jsonld".toList),
          "✔ HTML Visualization Generated: ".toList ++ ("Concept".toList ++ ".html".toList)],
         [("Concept".toList ++ ".jsonld".toList, serialize_jsonld br.graph),
          ("Concept".toList ++ ".html".toList,
            html_content "Concept".toList c3_post br (serialize_jsonld br.graph))]⟩ :=
  ⟨by decide,
   @c3_exact_match_isolation "Concept.md".toList "Concept".toList
     "not a valid uri!!".toList c3_post [] [] []
     rfl (by decide) (by decide) (by decide) (by decide)⟩

/-- Claim C8: a run whose input path does not resolve to a loadable file
prints the user-facing error message and writes nothing — the graph builder
is never reached; a run on an existing input tolerates absent, empty, or
malformed individual fields (any field value that is not a list holding a
non-string item) and completes, writing both artifacts and printing the two
confirmations. -/
theorem c8_error_handling (fp fn : Str) (post : Post)
    (h1 : shape_safe post.broader = true) (h2 : shape_safe post.narrower = true)
    (h3 : shape_safe post.related = true) :
    generate_hierarchical_skos fp fn none =
      .ok ⟨["Error: File ".toList ++ fp ++ " not found.".toList], []⟩ ∧
    ∃ r, generate_hierarchical_skos fp fn (some post) = .ok r ∧
      r.written.length = 2 ∧ r.messages.length = 2 := by
  refine ⟨rfl, ?_⟩
  obtain ⟨bl, hb⟩ := parse_links_ok_of_shape_safe _ h1
  obtain ⟨nl, hn⟩ := parse_links_ok_of_shape_safe _ h2
  obtain ⟨rl, hr⟩ := parse_links_ok_of_shape_safe _ h3
  have hbuild := build_graph_ok_of_parses fn hb hn hr
  exact ⟨_, generate_ok_of_build fp fn hbuild, rfl, rfl⟩

/-- Front matter with one malformed field shape, one normal list and absent
fields, as tolerated input for the error-handling claim. -/
def c8_post : Post :=
  ⟨.scalar .null, .scalar .null, .scalar .null, .scalar (.int 7),
   .list [.str "A".toList], .scalar .null, .scalar .null⟩

theorem c8_error_handling_witness :
    generate_hierarchical_skos "Note.md".toList "Note".toList none =
      .ok ⟨["Error: File ".toList ++ "Note.md".toList ++ " not found.".toList], []⟩ ∧
    ∃ r, generate_hierarchical_skos "Note.md".toList "Note".toList (some c8_post) = .ok r ∧
      r.written.length = 2 ∧ r.messages.length = 2 :=
  c8_error_handling "Note.md".toList "Note".toList c8_post
    (by decide) (by decide) (by decide)

/-- Claim C9: in the visualization page each of the three relation lists is
rendered inside its `<ul>` element by `make_list`; a non-empty list renders
as one link item per reference name, showing the name itself and targeting
the sibling page name (spaces turned into hyphens, plus the `.html`
extension), and an empty list renders as the single placeholder item
`<li>None</li>`; the page is written as the second output artifact. -/
theorem c9_html_relation_lists {fp fn : Str} {post : Post} {br : BuildResult}
    (h : build_graph fn post = .ok br) :
    (∃ u v, html_content fn post br (serialize_jsonld br.graph) =
      u ++ ("<ul>".toList ++ make_list br.broader_links ++ "</ul>".toList) ++ v) ∧
    (∃ u v, html_content fn post br (serialize_jsonld br.graph) =
      u ++ ("<ul>".toList ++ make_list br.narrower_links ++ "</ul>".toList) ++ v) ∧
    (∃ u v, html_content fn post br (serialize_jsonld br.graph) =
      u ++ ("<ul>".toList ++ make_list br.related_links ++ "</ul>".toList) ++ v) ∧
    generate_hierarchical_skos fp fn (some post) = .ok
      ⟨["✔ SKOS JSON-LD Generated: ".toList ++ (fn ++ ".jsonld".toList),
        "✔ HTML Visualization Generated: ".toList ++ (fn ++ ".html".toList)],
       [(fn ++ ".jsonld".toList, serialize_jsonld br.graph),
        (fn ++ ".html".toList, html_content fn post br (serialize_jsonld br.graph))]⟩ ∧
    (∀ links : List Str,
      (links = [] → make_list links = "<li>None</li>".toList) ∧
      (links ≠ [] → make_list links = (links.map fun l =>
        "<li><a href=\"".toList ++ hyphenate l ++ ".html\">".toList ++ l ++
          "</a></li>".toList).flatten)) := by
  refine ⟨?_, ?_, ?_, generate_ok_of_build fp fn h, ?_⟩
  · refine ⟨html_before_lists fn post (serialize_jsonld br.graph),
      html_between_broader_narrower ++
        ("<ul>".toList ++ make_list br.narrower_links ++ "</ul>".toList) ++
        html_between_narrower_related ++
        ("<ul>".toList ++ make_list br.related_links ++ "</ul>".toList) ++
        html_after_lists post, ?_⟩
    simp [html_content, List.append_assoc]
  · refine ⟨html_before_lists fn post (serialize_jsonld br.graph) ++
        ("<ul>".toList ++ make_list br.broader_links ++ "</ul>".toList) ++
        html_between_broader_narrower,
      html_between_narrower_related ++
        ("<ul>".toList ++ make_list br.related_links ++ "</ul>".toList) ++
        html_after_lists post, ?_⟩
    simp [html_content, List.append_assoc]
  · refine ⟨html_before_lists fn post (serialize_jsonld br.graph) ++
        ("<ul>".toList ++ make_list br.broader_links ++ "</ul>".toList) ++
        html_between_broader_narrower ++
        ("<ul>".toList ++ make_list br.narrower_links ++ "</ul>".toList) ++
        html_between_narrower_related,
      html_after_lists post, ?_⟩
    simp [html_content, List.append_assoc]
  · intro links
    constructor
    · rintro rfl
      rfl
    · intro hne
      match links, hne with
      | x :: xs, _ => rfl

/-- Front matter with one broader reference and no other relations. -/
def c9_post : Post :=
  ⟨.scalar .null, .scalar .null, .scalar .null,
   .scalar (.str "[[Governance]]".toList), .scalar .null, .scalar .null, .scalar .null⟩

/-- The build result for `c9_post` under base name `Democracy`. -/
def c9_br : BuildResult :=
  ⟨[⟨clean_uri "Democracy".toList, .rdfType, .skosConcept⟩,
    ⟨clean_uri "Democracy".toList, .prefLabel, .lit (.scalar (.str "Democracy".toList))⟩,
    ⟨clean_uri "Democracy".toList, .broader, .uri (clean_uri "Governance".toList)⟩],
   ["Governance".toList], [], []⟩

theorem c9_html_relation_lists_witness :
    (∃ u v, html_content "Democracy".toList c9_post c9_br (serialize_jsonld c9_br.graph) =
      u ++ ("<ul>".toList ++ make_list c9_br.broader_links ++ "</ul>".toList) ++ v) ∧
    make_list ([] : List Str) = "<li>None</li>".toList ∧
    make_list ["Parent A".toList] =
      (["Parent A".toList].map fun l => "<li><a href=\"".toList ++ hyphenate l ++
        ".html\">".toList ++ l ++ "</a></li>".toList).flatten := by
  have hb : build_graph "Democracy".toList c9_post = .ok c9_br := by decide
  have h := @c9_html_relation_lists "Democracy.md".toList "Democracy".toList c9_post c9_br hb
  exact ⟨h.1, (h.2.2.2.2 []).1 rfl, (h.2.2.2.2 ["Parent A".toList]).2 (by decide)⟩
